import Mathlib

/-!
Verification of the phetch Gopher client core against its design document.

The development shallowly embeds the Rust sources:
  * `src/gopher/type.rs` — the item-type enumeration, its classification
    predicates and the RFC character codec (`ItemType` below; the Rust enum is
    named `Type`, which is not a legal Lean identifier);
  * `src/ui.rs` — the UI controller: the navigation stack (`add_view`), URL
    opening (`openStep`), the telnet subprocess wrapper (`telnetStep`), the
    action dispatcher (`processAction`) and the update loop (`update`).

Strings are embedded as `List Char` (`Str`).  Code outside `src/` (the gopher
network module, the Menu/Text view internals, the collaborators for bookmarks,
history, clipboard, prompting and confirmation) is treated as an environment of
oracles (`Env`), so every theorem quantifies over the behaviour of those
collaborators.  Side effects are reified as an explicit `Effect` trace.
-/

namespace Phetch

/-- Embedded Rust `String`/`&str`: a list of characters. -/
abbrev Str := List Char

/-- Gopher item types, from `src/gopher/type.rs` (Rust `enum Type`). -/
inductive ItemType where
  | Text
  | Menu
  | CSOEntity
  | Error
  | Binhex
  | DOSFile
  | UUEncoded
  | Search
  | Telnet
  | Binary
  | Mirror
  | GIF
  | Telnet3270
  | HTML
  | Image
  | PNG
  | Info
  | Sound
  | Document
deriving DecidableEq

namespace ItemType

/-- Embeds `Type::is_info` from `src/gopher/type.rs`. -/
def is_info (t : ItemType) : Bool := t = ItemType.Info

/-- Embeds `Type::is_html` from `src/gopher/type.rs`. -/
def is_html (t : ItemType) : Bool := t = ItemType.HTML

/-- Embeds `Type::is_telnet` from `src/gopher/type.rs`. -/
def is_telnet (t : ItemType) : Bool := t = ItemType.Telnet

/-- Embeds `Type::is_download` from `src/gopher/type.rs`. -/
def is_download : ItemType → Bool
  | .Binhex | .DOSFile | .UUEncoded | .Binary | .GIF | .Image | .PNG | .Sound
  | .Document => true
  | _ => false

/-- Embeds `Type::is_link` from `src/gopher/type.rs`: menu, search, telnet and html
links, plus everything downloadable. -/
def is_link (t : ItemType) : Bool :=
  match t with
  | .Menu | .Search | .Telnet | .HTML => true
  | e => if e.is_download then true else false

/-- Embeds `Type::is_supported` from `src/gopher/type.rs`. -/
def is_supported : ItemType → Bool
  | .CSOEntity | .Mirror | .Telnet3270 => false
  | _ => true

/-- Embeds `Type::to_char` from `src/gopher/type.rs`: item type to RFC 1436 code. -/
def to_char : ItemType → Option Char
  | .Text => some '0'
  | .Menu => some '1'
  | .CSOEntity => some '2'
  | .Error => some '3'
  | .Binhex => some '4'
  | .DOSFile => some '5'
  | .UUEncoded => some '6'
  | .Search => some '7'
  | .Telnet => some '8'
  | .Binary => some '9'
  | .Mirror => some '+'
  | .GIF => some 'g'
  | .Telnet3270 => some 'T'
  | .HTML => some 'h'
  | .Image => some 'I'
  | .PNG => some 'p'
  | .Info => some 'i'
  | .Sound => some 's'
  | .Document => some 'd'

/-- Embeds `Type::from` from `src/gopher/type.rs` (the Rust method is named `from`,
which is a Lean keyword): RFC 1436 code to item type.  The Rust `match` on a
character with a catch-all arm is embedded as the equivalent chain of equality
tests. -/
def fromChar (c : Char) : Option ItemType :=
  if c = '0' then some .Text
  else if c = '1' then some .Menu
  else if c = '2' then some .CSOEntity
  else if c = '3' then some .Error
  else if c = '4' then some .Binhex
  else if c = '5' then some .DOSFile
  else if c = '6' then some .UUEncoded
  else if c = '7' then some .Search
  else if c = '8' then some .Telnet
  else if c = '9' then some .Binary
  else if c = '+' then some .Mirror
  else if c = 'g' then some .GIF
  else if c = 'T' then some .Telnet3270
  else if c = 'h' then some .HTML
  else if c = 'I' then some .Image
  else if c = 'p' then some .PNG
  else if c = 'i' then some .Info
  else if c = 's' then some .Sound
  else if c = 'd' then some .Document
  else none

/-- Rust `{:?}` debug form of an item type, used by the error message of
`UI::load` for unsupported responses. -/
def debugStr : ItemType → Str
  | .Text => "Text".toList
  | .Menu => "Menu".toList
  | .CSOEntity => "CSOEntity".toList
  | .Error => "Error".toList
  | .Binhex => "Binhex".toList
  | .DOSFile => "DOSFile".toList
  | .UUEncoded => "UUEncoded".toList
  | .Search => "Search".toList
  | .Telnet => "Telnet".toList
  | .Binary => "Binary".toList
  | .Mirror => "Mirror".toList
  | .GIF => "GIF".toList
  | .Telnet3270 => "Telnet3270".toList
  | .HTML => "HTML".toList
  | .Image => "Image".toList
  | .PNG => "PNG".toList
  | .Info => "Info".toList
  | .Sound => "Sound".toList
  | .Document => "Document".toList

end ItemType

/-- Does `pat` occur as a contiguous substring of `s`?  Embeds Rust
`str::contains` for a literal pattern (used as `url.contains("://")`). -/
def hasSubstr (s pat : Str) : Bool :=
  s.tails.any fun t => pat.isPrefixOf t

/-- Rust `str::trim_start_matches` for a literal pattern: repeatedly removes
the prefix `pat` from `s`. -/
def trimStartMatches (pat s : Str) : Str :=
  if h : pat ≠ [] ∧ pat.isPrefixOf s = true then
    trimStartMatches pat (s.drop pat.length)
  else s
termination_by s.length
decreasing_by
  have hle : pat.length ≤ s.length := by
    have := (List.isPrefixOf_iff_prefix.mp h.2).length_le
    exact this
  have hpos : 0 < pat.length := List.length_pos.mpr h.1
  simp only [List.length_drop]
  omega

/-- Two's-complement value of the Rust `usize` expression `n - 1` in a release
build: `0usize - 1` wraps around to `usize::MAX`.  `UI::process_action` computes
`self.views.len() - 1` without first checking for emptiness in its `Key::Right`
arm. -/
def usizeDec (n : Nat) : Nat :=
  if n = 0 then 18446744073709551615 else n - 1

/-- Configuration flags consumed by the UI (`config.rs` is outside `src/`):
the fields `ui.rs` reads are `tls`, `tor`, `wide` and `emoji`. -/
structure Config where
  tls : Bool
  tor : Bool
  wide : Bool
  emoji : Bool
deriving DecidableEq

/-- Which page kind a view is: the two `View` implementors `Menu` and `Text`
(spec §2, §4.2). -/
inductive ViewKind where
  | menu
  | text
deriving DecidableEq

/-- Modelled from the spec: the parts of a `Box<dyn View>` the controller in
`ui.rs` observes (`menu.rs` and `text.rs` are outside `src/`).  §4.2 requires
`url()` to return the originating url, `raw()` the unmodified source payload,
`is_tls()` the security flag, and `wide()`/`set_wide` the wrap-mode flag. -/
structure View where
  url : Str
  source : Str
  tls : Bool
  kind : ViewKind
  wide : Bool
deriving DecidableEq

/-- Modelled from the spec: `Menu::from(url, source, config, tls)`
(`menu.rs` is outside `src/`) builds a Menu view owning the verbatim raw
source, the originating url and the security flag (§3). -/
def menuFrom (url source : Str) (cfg : Config) (tls : Bool) : View :=
  { url := url, source := source, tls := tls, kind := .menu, wide := cfg.wide }

/-- Modelled from the spec: `Text::from(url, source, config, tls)`
(`text.rs` is outside `src/`) builds a Text view owning the raw body, the
originating url, the security flag and the wide-mode flag (§3). -/
def textFrom (url source : Str) (cfg : Config) (tls : Bool) : View :=
  { url := url, source := source, tls := tls, kind := .text, wide := cfg.wide }

/-- Embeds `view.set_wide(b)` (§4.2): set the wide-mode flag. -/
def View.set_wide (v : View) (b : Bool) : View := { v with wide := b }

/-- The controller state owned by `struct UI` in `src/ui.rs`: the navigation
stack `views`, the focus index `focused`, the redraw flag `dirty`, the loop
flag `running`, the screen `size`, the status line text and the user config.
The raw terminal handle is represented by the `Effect` trace instead. -/
structure UIState where
  views : List View
  focused : Nat
  dirty : Bool
  running : Bool
  size : Nat × Nat
  status : Str
  config : Config
deriving DecidableEq

/-- Embeds `UI::new(config)` from `src/ui.rs`: empty navigation stack, focus 0,
dirty, running, empty status.  The screen size probed from the terminal is a
parameter. -/
def initState (cfg : Config) (sz : Nat × Nat) : UIState :=
  { views := [], focused := 0, dirty := true, running := true, size := sz,
    status := [], config := cfg }

/-- Reified side effects performed by the controller: each constructor records
one call out of the pure navigation core (network, subprocess, terminal mode,
collaborator modules). -/
inductive Effect where
  | fetch (url : Str)
  | download (url : Str)
  | confirmAsk (question : Str)
  | openExternal (url : Str)
  | telnetSpawn (host port : Str)
  | historySave (title url : Str)
  | rawModeOff
  | rawModeOn
  | suspendProc
  | bookmark (title url : Str)
  | clipboard (text : Str)
  | drawOut (bytes : Str)
deriving DecidableEq

/-- Oracles for everything outside `src/` and for the interactive user:
the gopher network module (`fetch_url`, `download_url`, `type_for_url`,
`parse_url`), the help table, the bookmark/history/clipboard/external-opener
collaborators (§6), the user's answers to `UI::confirm` and `UI::prompt`, and
the exit status of the telnet subprocess.  Every theorem quantifies over an
arbitrary `Env`, so nothing is assumed about these collaborators. -/
structure Env where
  confirm : Str → Bool
  promptResult : Str → Str → Option Str
  fetchResult : Str → Except Str (Bool × Str)
  downloadResult : Str → Except Str (Str × Nat)
  typeForUrl : Str → ItemType
  parseHostPort : Str → Str × Str
  helpLookup : Str → Option Str
  openExternalResult : Str → Except Str Unit
  bookmarkSave : Str → Str → Except Str Unit
  clipboardResult : Str → Except Str Unit
  telnetSpawnResult : Str → Str → Except Str Unit
  telnetWaitResult : Str → Str → Except Str Unit

/-- Result of one controller operation: the successor state, the trace of side
effects performed (in order), and the Rust `Result` value. -/
abbrev StepResult := UIState × List Effect × Except Str Unit

/-- Rust `str::replace(pat, rep)` for a single-character pattern: every
occurrence of `t` is replaced by `rep`. -/
def replaceChar (t : Char) (rep : Str) (s : Str) : Str :=
  s.flatMap fun c => if c = t then rep else [c]

/-- Embeds `UI::set_status` from `src/ui.rs`: stores the text with `'\n'` replaced by
`"\n"` (backslash, n) and `'\r'` replaced by `"\r"` (backslash, r). -/
def set_status (s : UIState) (t : Str) : UIState :=
  { s with status := replaceChar '\r' "\\r".toList (replaceChar '\n' "\\n".toList t) }

/-- Embeds `UI::add_view` from `src/ui.rs`: truncate forward history when the focus is
not at the tail, push the new view, and advance the focus when more than one
view is loaded. -/
def add_view (s : UIState) (v : View) : UIState :=
  let views :=
    if ¬s.views.isEmpty ∧ s.focused < s.views.length - 1 then
      s.views.take (s.focused + 1)
    else s.views
  let views := views ++ [v]
  { s with
    dirty := true
    views := views
    focused := if views.length > 1 then s.focused + 1 else s.focused }

/-- ANSI escape written by `color::Red` (`color.rs` is outside `src/`; the
exact byte sequence is irrelevant to every claim). -/
def colorRed : Str := "\x1b[91m".toList

/-- ANSI escape written by `terminal::HideCursor` (outside `src/`). -/
def hideCursorSeq : Str := "\x1b[?25l".toList

/-- Scheme separator literal `"://"` tested by `UI::open`. -/
def schemeSep : Str := "://".toList

/-- Scheme literal `"telnet://"` tested by `UI::open`. -/
def telnetScheme : Str := "telnet://".toList

/-- Scheme literal `"gopher://"` tested by `UI::open`. -/
def gopherScheme : Str := "gopher://".toList

/-- Internal pseudo-namespace literal `"gopher://phetch/"` tested by
`UI::load`. -/
def phetchScheme : Str := "gopher://phetch/".toList

/-- Rule 1 of `UI::open`: does the focused view exist and carry exactly this
url? -/
def focusedUrlIs (s : UIState) (url : Str) : Bool :=
  match s.views[s.focused]? with
  | some v => decide (v.url = url)
  | none => false

/-- Rule 2 of `UI::open`: telnet-scheme url. -/
def isTelnetUrl (url : Str) : Bool := telnetScheme.isPrefixOf url

/-- Rule 3 of `UI::open`: absolute non-gopher url. -/
def isExternalUrl (url : Str) : Bool :=
  hasSubstr url schemeSep && !(gopherScheme.isPrefixOf url)

/-- The internal pseudo-namespace check of `UI::load`. -/
def isInternalUrl (url : Str) : Bool := phetchScheme.isPrefixOf url

/-- Embeds `UI::telnet` from `src/ui.rs`: suspend raw mode, spawn `telnet host port`,
wait for it, then re-activate raw mode.  The Rust `?` on `spawn()` and
`wait()` returns early, skipping `activate_raw_mode`. -/
def telnetStep (env : Env) (s : UIState) (url : Str) : StepResult :=
  let hp := env.parseHostPort url
  match env.telnetSpawnResult hp.1 hp.2 with
  | .error e => (s, [.rawModeOff, .telnetSpawn hp.1 hp.2], .error e)
  | .ok _ =>
    match env.telnetWaitResult hp.1 hp.2 with
    | .error e => (s, [.rawModeOff, .telnetSpawn hp.1 hp.2], .error e)
    | .ok _ =>
      ({ s with dirty := true },
       [.rawModeOff, .telnetSpawn hp.1 hp.2, .rawModeOn], .ok ())

/-- Simplified stand-in for `utils::human_bytes` (outside `src/`); only the
fact that some text is produced matters to the claims. -/
def humanBytes (n : Nat) : Str := (toString n).toList

/-- Status text of a completed download in `UI::download`. -/
def downloadCompleteMsg (path : Str) (bytes : Nat) : Str :=
  "Download complete! ".toList ++ humanBytes bytes ++ " saved to ".toList ++ path

/-- Embeds `UI::download` from `src/ui.rs`: run `gopher::download_url` under the
spinner (which marks the screen dirty), then report the saved file on the
status line; a failure propagates. -/
def downloadStep (env : Env) (s : UIState) (url : Str) : StepResult :=
  match env.downloadResult url with
  | .ok pb =>
    (set_status { s with dirty := true } (downloadCompleteMsg pb.1 pb.2),
     [.download url], .ok ())
  | .error e => ({ s with dirty := true }, [.download url], .error e)

/-- Error message of `UI::load` for an unsupported resolved item type. -/
def unsupportedMsg (t : ItemType) : Str :=
  "Unsupported Gopher Response: ".toList ++ t.debugStr

/-- Error message of `UI::load_internal` for an unknown internal url. -/
def phetchNotFoundMsg (url : Str) : Str :=
  "phetch URL not found: ".toList ++ url

/-- Embeds `UI::load_internal` from `src/ui.rs`: resolve a `gopher://phetch/` url
against the static help table instead of the network. -/
def loadInternal (env : Env) (s : UIState) (url : Str) :
    UIState × List Effect × Except Str View :=
  match env.helpLookup (trimStartMatches "1/".toList (trimStartMatches phetchScheme url)) with
  | some source => (s, [], .ok (menuFrom url source s.config false))
  | none => (s, [], .error (phetchNotFoundMsg url))

/-- Embeds `UI::load` from `src/ui.rs`: internal urls go to the help table; otherwise
record history, fetch the url (skipping the spinner — and hence the redraw
mark — only for the very first request), and build the view matching the
resolved item type; any other type is an unsupported-response error. -/
def loadStep (env : Env) (s : UIState) (title url : Str) :
    UIState × List Effect × Except Str View :=
  if isInternalUrl url then loadInternal env s url
  else
    let effs := [Effect.historySave title url, Effect.fetch url]
    let s' := if s.views.isEmpty then s else { s with dirty := true }
    match env.fetchResult url with
    | .error e => (s', effs, .error e)
    | .ok tr =>
      match env.typeForUrl url with
      | .Menu => (s', effs, .ok (menuFrom url tr.2 s.config tr.1))
      | .Search => (s', effs, .ok (menuFrom url tr.2 s.config tr.1))
      | .Text => (s', effs, .ok (textFrom url tr.2 s.config tr.1))
      | .HTML => (s', effs, .ok (textFrom url tr.2 s.config tr.1))
      | t => (s', effs, .error (unsupportedMsg t))

/-- Confirmation question of `UI::open` for an external url. -/
def externalQuestion (url : Str) : Str :=
  "Open external URL? ".toList ++ url

/-- Confirmation question of `UI::open` for a download. -/
def downloadQuestion (url : Str) : Str :=
  "Download ".toList ++ url ++ "?".toList

/-- Embeds `UI::open` from `src/ui.rs`.  Resolution order: (1) the focused view's own
url is a no-op; (2) telnet urls run the telnet subprocess; (3) other absolute
non-gopher urls are confirmed and handed to the external opener; (4) urls whose
resolved type is downloadable are confirmed and downloaded; (5) otherwise the
url is loaded and the resulting view pushed. -/
def openStep (env : Env) (s : UIState) (title url : Str) : StepResult :=
  if focusedUrlIs s url then (s, [], .ok ())
  else if isTelnetUrl url then telnetStep env s url
  else if isExternalUrl url then
    let q := externalQuestion url
    let s' := { s with dirty := true }
    if env.confirm q then
      (s', [.confirmAsk q, .openExternal url], env.openExternalResult url)
    else (s', [.confirmAsk q], .ok ())
  else if (env.typeForUrl url).is_download then
    let q := downloadQuestion url
    let s' := { s with dirty := true }
    if env.confirm q then
      let r := downloadStep env s' url
      (r.1, .confirmAsk q :: r.2.1, r.2.2)
    else (s', [.confirmAsk q], .ok ())
  else
    match loadStep env s title url with
    | (s', effs, .ok v) => (add_view s' v, effs, .ok ())
    | (s', effs, .error e) => (s', effs, .error e)

/-- Termion key events consumed by `UI::process_action` (`termion` is an
external crate).  Only the variants that `ui.rs` matches on are distinguished;
every other key is collapsed into `other`, which the Rust dispatcher sends to
its catch-all arm. -/
inductive Key where
  | char (c : Char)
  | ctrl (c : Char)
  | left
  | right
  | backspace
  | esc
  | other
deriving DecidableEq

/-- Modelled from the spec: the `Action` tagged union (§3; `src/ui/action.rs`
is outside `src/`) — Open, Prompt (with its continuation), Status, Draw,
Error, Keypress, Redraw, List and NoOp.  The constructor names `open` and
`list` are adjusted to legal Lean identifiers. -/
inductive Action where
  | openIt (title url : Str)
  | prompt (query : Str) (cont : Str → Action)
  | status (text : Str)
  | drawBytes (bytes : Str)
  | error (msg : Str)
  | keypress (k : Key)
  | redraw
  | actionList (actions : List Action)
  | noop

/-- Modelled from the spec: `Action::is_none` (outside `src/`); NoOp is the
inert action, and `UI::update` clears the status line only for other
actions. -/
def Action.isNone : Action → Bool
  | .noop => true
  | _ => false

/-- Status text stored directly (not via `set_status`) by the ctrl-c arm of
`UI::process_action`. -/
def useQToQuitMsg : Str := "\x1b[90m(Use q to quit)\x1b[0m".toList

/-- Error message of `UI::process_action` for an unbound key. -/
def unknownKeypressMsg (c : Char) : Str :=
  "Unknown keypress: ".toList ++ [c]

/-- Error message of `UI::process_view_input` when no view is focused. -/
def noPageMsg : Str := "No Gopher page loaded.".toList

/-- Error message prefix of the bookmark arm of `UI::process_action`. -/
def saveFailedMsg (e : Str) : Str := "Save failed: ".toList ++ e

/-- Status text of the bookmark arm of `UI::process_action`. -/
def savedBookmarkMsg (url : Str) : Str := "Saved bookmark: ".toList ++ url

/-- Status text of the clipboard arm of `UI::process_action`. -/
def copiedMsg (url : Str) : Str :=
  "Copied ".toList ++ url ++ " to clipboard.".toList

/-- The letter-key dispatch table inside `UI::process_action` (the arm for
`Key::Char(key) | Key::Ctrl(key)`).  The Rust `match` on a character with a
catch-all arm is embedded as the equivalent chain of equality tests. -/
def charKeyStep (env : Env) (s : UIState) (c : Char) : StepResult :=
  if c = 'a' then
    openStep env s "History".toList "gopher://phetch/1/history".toList
  else if c = 'b' then
    openStep env s "Bookmarks".toList "gopher://phetch/1/bookmarks".toList
  else if c = 'g' then
    match env.promptResult "Go to URL: ".toList [] with
    | some url => openStep env s url url
    | none => (s, [], .ok ())
  else if c = 'h' then
    openStep env s "Help".toList "gopher://phetch/1/help".toList
  else if c = 'r' then
    match s.views[s.focused]? with
    | some v =>
      (add_view s { textFrom v.url v.source s.config v.tls with wide := true },
       [], .ok ())
    | none => (s, [], .ok ())
  else if c = 's' then
    match s.views[s.focused]? with
    | some v =>
      match env.bookmarkSave v.url v.url with
      | .ok _ =>
        (set_status s (savedBookmarkMsg v.url), [.bookmark v.url v.url], .ok ())
      | .error e => (s, [.bookmark v.url v.url], .error (saveFailedMsg e))
    | none => (s, [], .ok ())
  else if c = 'u' then
    match s.views[s.focused]? with
    | some v =>
      match env.promptResult "Current URL: ".toList v.url with
      | some url => if url ≠ v.url then openStep env s url url else (s, [], .ok ())
      | none => (s, [], .ok ())
    | none => (s, [], .ok ())
  else if c = 'y' then
    match s.views[s.focused]? with
    | some v =>
      match env.clipboardResult v.url with
      | .ok _ => (set_status s (copiedMsg v.url), [.clipboard v.url], .ok ())
      | .error e => (s, [.clipboard v.url], .error e)
    | none => (s, [], .ok ())
  else if c = 'w' then
    let s := { s with config := { s.config with wide := ¬s.config.wide } }
    match s.views[s.focused]? with
    | some v =>
      ({ s with
          views := s.views.set s.focused (v.set_wide (¬v.wide)),
          dirty := true },
       [], .ok ())
    | none => (s, [], .ok ())
  else if c = 'q' then ({ s with running := false }, [], .ok ())
  else (s, [], .error (unknownKeypressMsg c))

/-- The `Action::Keypress` arms of `UI::process_action`, in source order:
ctrl-c, ctrl-z, Esc, Left/Backspace, Right, then the letter table (which also
receives every other ctrl chord); any other key falls to the catch-all arm. -/
def keyStep (env : Env) (s : UIState) (k : Key) : StepResult :=
  match k with
  | .ctrl c =>
    if c = 'c' then ({ s with status := useQToQuitMsg }, [], .ok ())
    else if c = 'z' then ({ s with dirty := true }, [.suspendProc], .ok ())
    else charKeyStep env s c
  | .esc => (s, [], .ok ())
  | .left | .backspace =>
    (if s.focused > 0 then { s with dirty := true, focused := s.focused - 1 }
     else s,
     [], .ok ())
  | .right =>
    (if s.focused < usizeDec s.views.length then
       { s with dirty := true, focused := s.focused + 1 }
     else s,
     [], .ok ())
  | .char c => charKeyStep env s c
  | .other => (s, [], .ok ())

mutual

/-- Embeds `UI::process_action` from `src/ui.rs`: interpret one `Action`.  `fuel`
bounds only the depth of `Prompt` continuations (the Rust code recurses
without a bound; any finite interaction uses finitely many prompts, and every
theorem below quantifies over `fuel`). -/
def processAction (env : Env) : Nat → UIState → Action → StepResult
  | fuel, s, .actionList as => processList env fuel s as
  | fuel, s, .prompt q cont =>
    match env.promptResult q [] with
    | some response =>
      match fuel with
      | 0 => (s, [], .error "prompt recursion fuel exhausted".toList)
      | fuel' + 1 => processAction env fuel' s (cont response)
    | none => (s, [], .ok ())
  | _, s, .keypress k => keyStep env s k
  | _, s, .error e => (s, [], .error e)
  | _, s, .redraw => ({ s with dirty := true }, [], .ok ())
  | _, s, .drawBytes b => (s, [.drawOut b], .ok ())
  | _, s, .status t => (set_status s t, [], .ok ())
  | _, s, .openIt title url => openStep env s title url
  | _, s, .noop => (s, [], .ok ())

/-- The `Action::List` arm of `UI::process_action`: members strictly in order,
the first error aborting the remainder (Rust `?` inside the `for` loop). -/
def processList (env : Env) : Nat → UIState → List Action → StepResult
  | _, s, [] => (s, [], .ok ())
  | fuel, s, a :: rest =>
    match processAction env fuel s a with
    | (s', effs, .ok _) =>
      let r := processList env fuel s' rest
      (r.1, effs ++ r.2.1, r.2.2)
    | (s', effs, .error e) => (s', effs, .error e)

end

/-- Embeds `UI::update` from `src/ui.rs` combined with `UI::process_view_input`: the
focused view turns the keystroke into an arbitrary action `a` (menu/text input
handling lives outside `src/`); without a focused view the input step yields
`Action::Error(noPageMsg)`.  A non-NoOp action first clears the status line;
a processing error is painted red onto the status line. -/
def update (env : Env) (fuel : Nat) (s : UIState) (a : Action) :
    UIState × List Effect :=
  let act := if s.focused < s.views.length then a else .error noPageMsg
  let s' := if act.isNone then s else { s with status := [] }
  match processAction env fuel s' act with
  | (s'', effs, .ok _) => (s'', effs)
  | (s'', effs, .error e) =>
    (set_status s'' (colorRed ++ e ++ hideCursorSeq), effs)

/-- The controller states reachable from `UI::new`: the startup call to
`UI::open` made by the binary crate (outside `src/`) and the `update` steps of
`UI::run`, with the focused view free to produce any action. -/
inductive Reach : UIState → Prop where
  | initial (cfg : Config) (sz : Nat × Nat) : Reach (initState cfg sz)
  | stepOpen (env : Env) (title url : Str) (s : UIState) :
      Reach s → Reach (openStep env s title url).1
  | stepUpdate (env : Env) (fuel : Nat) (a : Action) (s : UIState) :
      Reach s → Reach (update env fuel s a).1

/-- Classifier: is this effect a confirmation overlay (`UI::confirm`)? -/
def Effect.isConfirmEff : Effect → Bool
  | .confirmAsk _ => true
  | _ => false

/-- Classifier: is this effect a network fetch (`gopher::fetch_url`)? -/
def Effect.isFetchEff : Effect → Bool
  | .fetch _ => true
  | _ => false

/-- Classifier: is this effect a download stream (`gopher::download_url`)? -/
def Effect.isDownloadEff : Effect → Bool
  | .download _ => true
  | _ => false

/-- Classifier: is this effect an external-opener invocation
(`utils::open_external`)? -/
def Effect.isExternalEff : Effect → Bool
  | .openExternal _ => true
  | _ => false

/-- Classifier: is this effect a telnet subprocess spawn? -/
def Effect.isTelnetEff : Effect → Bool
  | .telnetSpawn _ _ => true
  | _ => false

/-- A concrete environment used by the closed witness theorems: the user
declines every confirmation and prompt, every fetch returns an empty insecure
body, and every collaborator call succeeds. -/
def trivialEnv : Env where
  confirm := fun _ => false
  promptResult := fun _ _ => none
  fetchResult := fun _ => .ok (false, [])
  downloadResult := fun _ => .ok ([], 0)
  typeForUrl := fun _ => .Menu
  parseHostPort := fun _ => ([], [])
  helpLookup := fun _ => none
  openExternalResult := fun _ => .ok ()
  bookmarkSave := fun _ _ => .ok ()
  clipboardResult := fun _ => .ok ()
  telnetSpawnResult := fun _ _ => .ok ()
  telnetWaitResult := fun _ _ => .ok ()

/-- The navigation invariant of §3: the focus index is strictly below the
stack length whenever the stack is non-empty, and before any view is loaded
the focus index is still at its initial 0. -/
def Inv (s : UIState) : Prop :=
  (s.views = [] → s.focused = 0) ∧
  (s.views ≠ [] → s.focused < s.views.length)

/-- Concrete configuration used by the closed witness theorems. -/
def baseCfg : Config := ⟨false, false, false, false⟩

/-- Concrete view used by the closed witness theorems. -/
def baseView : View := menuFrom "gopher://x/".toList [] baseCfg false

/-- Concrete one-view controller state used by the closed witness theorems. -/
def baseState : UIState :=
  { views := [baseView], focused := 0, dirty := false, running := true,
    size := (80, 24), status := "old".toList, config := baseCfg }

/-- Per-character simultaneous form of the C10 escaping, following the claim's
wording: every line feed becomes the two-character sequence backslash-n and
every carriage return becomes backslash-r.  Stated only to be compared with
`set_status`, which is translated from the source. -/
def statusEscapeSpec (t : Str) : Str :=
  t.flatMap fun c =>
    if c = '\n' then "\\n".toList
    else if c = '\r' then "\\r".toList
    else [c]

/-- C1: the classification predicates on the item-type enumeration form
exactly the partition of §4.1: for every enumerated type `t`, `is_download t`
holds iff `t` is one of the nine download types, `is_link t` holds iff `t` is
Menu, Search, Telnet or HTML or is a download, `is_supported t` holds iff `t`
is not CSOEntity, Mirror or Telnet3270, and `is_info t` holds iff
`t = Info`. -/
theorem c1_classification_partition (t : ItemType) :
    (t.is_download = true ↔
      t ∈ [ItemType.Binhex, .DOSFile, .UUEncoded, .Binary, .GIF, .Image, .PNG,
           .Sound, .Document]) ∧
    (t.is_link = true ↔
      (t ∈ [ItemType.Menu, .Search, .Telnet, .HTML] ∨ t.is_download = true)) ∧
    (t.is_supported = true ↔
      t ∉ [ItemType.CSOEntity, .Mirror, .Telnet3270]) ∧
    (t.is_info = true ↔ t = ItemType.Info) := by
  cases t <;> decide

/-- C2: for every character that decodes to an item type, re-encoding yields
the same character: `fromChar c = some t` implies `to_char t = some c`. -/
theorem c2_code_roundtrip (c : Char) (t : ItemType)
    (h : ItemType.fromChar c = some t) : t.to_char = some c := by
  rw [ItemType.fromChar] at h
  by_cases h0 : c = '0'
  · rw [if_pos h0] at h; cases h; rw [h0]; rfl
  rw [if_neg h0] at h
  by_cases h1 : c = '1'
  · rw [if_pos h1] at h; cases h; rw [h1]; rfl
  rw [if_neg h1] at h
  by_cases h2 : c = '2'
  · rw [if_pos h2] at h; cases h; rw [h2]; rfl
  rw [if_neg h2] at h
  by_cases h3 : c = '3'
  · rw [if_pos h3] at h; cases h; rw [h3]; rfl
  rw [if_neg h3] at h
  by_cases h4 : c = '4'
  · rw [if_pos h4] at h; cases h; rw [h4]; rfl
  rw [if_neg h4] at h
  by_cases h5 : c = '5'
  · rw [if_pos h5] at h; cases h; rw [h5]; rfl
  rw [if_neg h5] at h
  by_cases h6 : c = '6'
  · rw [if_pos h6] at h; cases h; rw [h6]; rfl
  rw [if_neg h6] at h
  by_cases h7 : c = '7'
  · rw [if_pos h7] at h; cases h; rw [h7]; rfl
  rw [if_neg h7] at h
  by_cases h8 : c = '8'
  · rw [if_pos h8] at h; cases h; rw [h8]; rfl
  rw [if_neg h8] at h
  by_cases h9 : c = '9'
  · rw [if_pos h9] at h; cases h; rw [h9]; rfl
  rw [if_neg h9] at h
  by_cases h10 : c = '+'
  · rw [if_pos h10] at h; cases h; rw [h10]; rfl
  rw [if_neg h10] at h
  by_cases h11 : c = 'g'
  · rw [if_pos h11] at h; cases h; rw [h11]; rfl
  rw [if_neg h11] at h
  by_cases h12 : c = 'T'
  · rw [if_pos h12] at h; cases h; rw [h12]; rfl
  rw [if_neg h12] at h
  by_cases h13 : c = 'h'
  · rw [if_pos h13] at h; cases h; rw [h13]; rfl
  rw [if_neg h13] at h
  by_cases h14 : c = 'I'
  · rw [if_pos h14] at h; cases h; rw [h14]; rfl
  rw [if_neg h14] at h
  by_cases h15 : c = 'p'
  · rw [if_pos h15] at h; cases h; rw [h15]; rfl
  rw [if_neg h15] at h
  by_cases h16 : c = 'i'
  · rw [if_pos h16] at h; cases h; rw [h16]; rfl
  rw [if_neg h16] at h
  by_cases h17 : c = 's'
  · rw [if_pos h17] at h; cases h; rw [h17]; rfl
  rw [if_neg h17] at h
  by_cases h18 : c = 'd'
  · rw [if_pos h18] at h; cases h; rw [h18]; rfl
  rw [if_neg h18] at h
  cases h

/-- Witness for C2 at the concrete code `'0'`. -/
theorem c2_code_roundtrip_witness :
    ItemType.fromChar '0' = some ItemType.Text ∧
      ItemType.to_char ItemType.Text = some '0' :=
  ⟨by decide, c2_code_roundtrip '0' ItemType.Text (by decide)⟩

/-- C10: `set_status` stores the text with every line feed replaced by the
two-character sequence backslash-n and every carriage return replaced by
backslash-r, so the stored status text never contains a raw line
terminator. -/
theorem c10_status_escaping (s : UIState) (t : Str) :
    (set_status s t).status = statusEscapeSpec t ∧
      '\n' ∉ (set_status s t).status ∧ '\r' ∉ (set_status s t).status := by
  have heq : (set_status s t).status = statusEscapeSpec t := by
    show replaceChar '\r' _ (replaceChar '\n' _ t) = _
    unfold replaceChar statusEscapeSpec
    induction t with
    | nil => rfl
    | cons c cs ih =>
      simp only [List.flatMap_cons] at *
      by_cases hn : c = '\n'
      · subst hn; simpa using ih
      · by_cases hr : c = '\r'
        · subst hr; simpa using ih
        · simp only [if_neg hn, if_neg hr]
          simpa [hn, hr] using ih
  have hclean : ∀ x ∈ statusEscapeSpec t, x ≠ '\n' ∧ x ≠ '\r' := by
    intro x hx
    unfold statusEscapeSpec at hx
    rw [List.mem_flatMap] at hx
    obtain ⟨c, _, hm⟩ := hx
    by_cases h1 : c = '\n'
    · rw [if_pos h1] at hm
      have hd : x = '\\' ∨ x = 'n' := by simpa using hm
      rcases hd with rfl | rfl <;> exact ⟨by decide, by decide⟩
    · rw [if_neg h1] at hm
      by_cases h2 : c = '\r'
      · rw [if_pos h2] at hm
        have hd : x = '\\' ∨ x = 'r' := by simpa using hm
        rcases hd with rfl | rfl <;> exact ⟨by decide, by decide⟩
      · rw [if_neg h2] at hm
        have hd : x = c := by simpa using hm
        subst hd
        exact ⟨h1, h2⟩
  refine ⟨heq, ?_, ?_⟩ <;> rw [heq] <;> intro hmem
  · exact (hclean _ hmem).1 rfl
  · exact (hclean _ hmem).2 rfl

/-- C3: branch truncation — when a view is appended while the focus is not at
the tail of the navigation stack, every view strictly after the focus is
discarded, the new view is appended, and the focus moves onto the new view. -/
theorem c3_branch_truncation (s : UIState) (v : View) (hne : s.views ≠ [])
    (hf : s.focused < s.views.length - 1) :
    (add_view s v).views = s.views.take (s.focused + 1) ++ [v] ∧
    (add_view s v).focused = s.focused + 1 ∧
    (add_view s v).views[(add_view s v).focused]? = some v := by
  have hlt : s.focused + 1 < s.views.length := by omega
  have hcond : ¬s.views.isEmpty ∧ s.focused < s.views.length - 1 :=
    ⟨by simpa using hne, hf⟩
  have htk : (s.views.take (s.focused + 1)).length = s.focused + 1 := by
    simp [List.length_take]
    omega
  have hgt : (s.views.take (s.focused + 1) ++ [v]).length > 1 := by
    simp [htk]
  have hviews : (add_view s v).views = s.views.take (s.focused + 1) ++ [v] := by
    unfold add_view
    simp only [if_pos hcond]
  have hfoc : (add_view s v).focused = s.focused + 1 := by
    unfold add_view
    simp only [if_pos hcond, if_pos hgt]
  refine ⟨hviews, hfoc, ?_⟩
  rw [hviews, hfoc, List.getElem?_append_right (by omega)]
  simp [htk]

/-- Witness for C3: the spec's own example — stack `[A, B, C]` with focus on
`A`; adding `D` yields stack `[A, D]` with focus on `D`. -/
theorem c3_branch_truncation_witness :
    letI cfg : Config := ⟨false, false, false, false⟩
    letI viewA := menuFrom "gopher://a/".toList [] cfg false
    letI viewB := menuFrom "gopher://b/".toList [] cfg false
    letI viewC := menuFrom "gopher://c/".toList [] cfg false
    letI viewD := menuFrom "gopher://d/".toList [] cfg false
    letI s : UIState := { views := [viewA, viewB, viewC], focused := 0,
                          dirty := false, running := true, size := (80, 24),
                          status := [], config := cfg }
    (add_view s viewD).views = [viewA, viewD] ∧
      (add_view s viewD).focused = 1 ∧
      (add_view s viewD).views[(add_view s viewD).focused]? = some viewD := by
  have h := c3_branch_truncation
    { views := [menuFrom "gopher://a/".toList [] ⟨false, false, false, false⟩ false,
                menuFrom "gopher://b/".toList [] ⟨false, false, false, false⟩ false,
                menuFrom "gopher://c/".toList [] ⟨false, false, false, false⟩ false],
      focused := 0, dirty := false, running := true, size := (80, 24),
      status := [], config := ⟨false, false, false, false⟩ }
    (menuFrom "gopher://d/".toList [] ⟨false, false, false, false⟩ false)
    (by decide) (by decide)
  exact ⟨h.1, h.2.1, h.2.2⟩

/-- C4: opening the focused view's own url is a no-op — the call succeeds, the
whole controller state (stack, focus, every view) is returned unchanged, and
no effect (fetch, subprocess, confirmation) is performed. -/
theorem c4_same_url_noop (env : Env) (s : UIState) (title url : Str) (v : View)
    (hv : s.views[s.focused]? = some v) (hu : v.url = url) :
    openStep env s title url = (s, [], .ok ()) := by
  have hc : focusedUrlIs s url = true := by
    unfold focusedUrlIs
    rw [hv]
    simp [hu]
  unfold openStep
  rw [if_pos hc]

/-- Witness for C4 on a one-view stack whose focused view carries the opened
url. -/
theorem c4_same_url_noop_witness :
    letI cfg : Config := ⟨false, false, false, false⟩
    letI v := menuFrom "gopher://x/".toList [] cfg false
    letI s : UIState := { views := [v], focused := 0, dirty := false,
                          running := true, size := (80, 24), status := [],
                          config := cfg }
    openStep trivialEnv s "t".toList "gopher://x/".toList = (s, [], .ok ()) :=
  c4_same_url_noop trivialEnv _ _ _
    (menuFrom "gopher://x/".toList [] ⟨false, false, false, false⟩ false)
    (by decide) (by decide)

/-- C9 (code evaluated at the failing input): opening a telnet url in an
environment where spawning the `telnet` subprocess fails makes `UI::open`
return the spawn error with raw mode still suspended — the effect trace holds
the `suspend_raw_mode` call but no matching `activate_raw_mode`, because the
Rust `?` on `spawn()` returns before the re-activation line. -/
theorem c9_telnet_raw_mode_not_restored :
    letI env : Env :=
      { trivialEnv with
          telnetSpawnResult := fun _ _ => .error "telnet spawn failed".toList }
    letI s := initState ⟨false, false, false, false⟩ (80, 24)
    letI r := openStep env s "telnet".toList "telnet://example.com".toList
    r.2.2 = .error "telnet spawn failed".toList ∧
      Effect.rawModeOff ∈ r.2.1 ∧ Effect.rawModeOn ∉ r.2.1 :=
  ⟨rfl, by decide, by decide⟩

/-- C7: a fetched gopher url that is not the focused url, not telnet, not
external, not download-classified and not internal, whose fetch succeeds but
whose resolved item type is none of Menu, Search, Text or HTML, makes `open`
return the unsupported-response error and push no view: the navigation stack
and the focus index are exactly as before the call. -/
theorem c7_unsupported_response (env : Env) (s : UIState) (title url : Str)
    (h1 : focusedUrlIs s url = false)
    (h2 : isTelnetUrl url = false)
    (h3 : isExternalUrl url = false)
    (h4 : (env.typeForUrl url).is_download = false)
    (h5 : isInternalUrl url = false)
    (h6 : ∃ p, env.fetchResult url = .ok p)
    (h7 : env.typeForUrl url ≠ .Menu)
    (h8 : env.typeForUrl url ≠ .Search)
    (h9 : env.typeForUrl url ≠ .Text)
    (h10 : env.typeForUrl url ≠ .HTML) :
    (openStep env s title url).2.2 =
        .error (unsupportedMsg (env.typeForUrl url)) ∧
      (openStep env s title url).1.views = s.views ∧
      (openStep env s title url).1.focused = s.focused := by
  obtain ⟨p, hp⟩ := h6
  have hload : loadStep env s title url =
      ((if s.views.isEmpty then s else { s with dirty := true }),
       [Effect.historySave title url, Effect.fetch url],
       .error (unsupportedMsg (env.typeForUrl url))) := by
    unfold loadStep
    rw [h5]
    simp only [Bool.false_eq_true, if_false]
    rw [hp]
  have hopen : openStep env s title url =
      ((if s.views.isEmpty then s else { s with dirty := true }),
       [Effect.historySave title url, Effect.fetch url],
       .error (unsupportedMsg (env.typeForUrl url))) := by
    unfold openStep
    rw [h1, h2, h3, h4]
    simp only [Bool.false_eq_true, if_false]
    rw [hload]
  rw [hopen]
  refine ⟨rfl, ?_, ?_⟩ <;> by_cases hv : s.views.isEmpty <;> simp [hv]

/-- Effect trace of `UI::load`: internal urls perform no effect; every other
url records history and then fetches, whatever the outcome. -/
theorem loadStep_effs (env : Env) (s : UIState) (title url : Str) :
    (loadStep env s title url).2.1 =
      if isInternalUrl url then []
      else [Effect.historySave title url, Effect.fetch url] := by
  unfold loadStep loadInternal
  by_cases hi : isInternalUrl url = true
  · rw [if_pos hi, if_pos hi]
    cases env.helpLookup (trimStartMatches "1/".toList (trimStartMatches phetchScheme url)) <;>
      rfl
  · rw [if_neg hi, if_neg hi]
    cases env.fetchResult url with
    | error e => rfl
    | ok tr => cases env.typeForUrl url <;> rfl

/-- C5: `open` applies its resolution rules in the stated order, first match
wins: (1) the same-url no-op; (2) telnet launch; (3) confirmed external
delegation; (4) confirmed download; (5) fetch-and-push.  Each conjunct states
the behaviour when exactly that rule fires and that no other rule's effect
(confirmation, fetch, download, external open, telnet spawn) occurs. -/
theorem c5_open_resolution_order (env : Env) (s : UIState) (title url : Str) :
    (focusedUrlIs s url = true →
      openStep env s title url = (s, [], .ok ())) ∧
    (focusedUrlIs s url = false → isTelnetUrl url = true →
      openStep env s title url = telnetStep env s url ∧
      (openStep env s title url).2.1.any Effect.isTelnetEff = true ∧
      (openStep env s title url).2.1.all
        (fun e =>
          !e.isConfirmEff && !e.isFetchEff && !e.isDownloadEff && !e.isExternalEff)
        = true) ∧
    (focusedUrlIs s url = false → isTelnetUrl url = false →
     isExternalUrl url = true →
      Effect.confirmAsk (externalQuestion url) ∈ (openStep env s title url).2.1 ∧
      (env.confirm (externalQuestion url) = true →
        openStep env s title url =
          ({ s with dirty := true },
           [.confirmAsk (externalQuestion url), .openExternal url],
           env.openExternalResult url)) ∧
      (env.confirm (externalQuestion url) = false →
        openStep env s title url =
          ({ s with dirty := true }, [.confirmAsk (externalQuestion url)],
           .ok ())) ∧
      (openStep env s title url).2.1.all
        (fun e => !e.isFetchEff && !e.isDownloadEff && !e.isTelnetEff) = true) ∧
    (focusedUrlIs s url = false → isTelnetUrl url = false →
     isExternalUrl url = false → (env.typeForUrl url).is_download = true →
      Effect.confirmAsk (downloadQuestion url) ∈ (openStep env s title url).2.1 ∧
      (env.confirm (downloadQuestion url) = true →
        Effect.download url ∈ (openStep env s title url).2.1) ∧
      (env.confirm (downloadQuestion url) = false →
        openStep env s title url =
          ({ s with dirty := true }, [.confirmAsk (downloadQuestion url)],
           .ok ())) ∧
      (openStep env s title url).2.1.all
        (fun e => !e.isFetchEff && !e.isExternalEff && !e.isTelnetEff) = true) ∧
    (focusedUrlIs s url = false → isTelnetUrl url = false →
     isExternalUrl url = false → (env.typeForUrl url).is_download = false →
      (openStep env s title url).2.1.all
        (fun e =>
          !e.isConfirmEff && !e.isDownloadEff && !e.isExternalEff && !e.isTelnetEff)
        = true ∧
      (isInternalUrl url = false →
        Effect.fetch url ∈ (openStep env s title url).2.1) ∧
      (∀ s1 effs v, loadStep env s title url = (s1, effs, .ok v) →
        openStep env s title url = (add_view s1 v, effs, .ok ())) ∧
      (∀ s1 effs e, loadStep env s title url = (s1, effs, .error e) →
        openStep env s title url = (s1, effs, .error e))) := by
  refine ⟨?_, ?_, ?_, ?_, ?_⟩
  · intro h1
    unfold openStep
    rw [if_pos h1]
  · intro h1 h2
    have heq : openStep env s title url = telnetStep env s url := by
      unfold openStep
      rw [h1, h2]
      simp
    have hshape :
        (telnetStep env s url).2.1 =
          [Effect.rawModeOff,
           Effect.telnetSpawn (env.parseHostPort url).1 (env.parseHostPort url).2] ∨
        (telnetStep env s url).2.1 =
          [Effect.rawModeOff,
           Effect.telnetSpawn (env.parseHostPort url).1 (env.parseHostPort url).2,
           Effect.rawModeOn] := by
      simp only [telnetStep]
      rcases env.telnetSpawnResult (env.parseHostPort url).1 (env.parseHostPort url).2
        with e | u
      · left; rfl
      · rcases env.telnetWaitResult (env.parseHostPort url).1 (env.parseHostPort url).2
          with e | u
        · left; rfl
        · right; rfl
    refine ⟨heq, ?_, ?_⟩ <;> rw [heq] <;> rcases hshape with hsh | hsh <;>
      rw [hsh] <;> rfl
  · intro h1 h2 h3
    have heq : openStep env s title url =
        (if env.confirm (externalQuestion url) then
          ({ s with dirty := true },
           [.confirmAsk (externalQuestion url), .openExternal url],
           env.openExternalResult url)
         else
          ({ s with dirty := true }, [.confirmAsk (externalQuestion url)],
           .ok ())) := by
      unfold openStep
      rw [h1, h2, h3]
      simp
    by_cases hc : env.confirm (externalQuestion url) = true
    · rw [if_pos hc] at heq
      exact ⟨by rw [heq]; simp, fun _ => heq,
        fun hf => absurd hc (by simp [hf]), by rw [heq]; rfl⟩
    · rw [if_neg hc] at heq
      exact ⟨by rw [heq]; simp, fun ht => absurd ht hc,
        fun _ => heq, by rw [heq]; rfl⟩
  · intro h1 h2 h3 h4
    have heq : openStep env s title url =
        (if env.confirm (downloadQuestion url) then
          ((downloadStep env { s with dirty := true } url).1,
           .confirmAsk (downloadQuestion url) ::
             (downloadStep env { s with dirty := true } url).2.1,
           (downloadStep env { s with dirty := true } url).2.2)
         else
          ({ s with dirty := true }, [.confirmAsk (downloadQuestion url)],
           .ok ())) := by
      unfold openStep
      rw [h1, h2, h3, h4]
      simp
    have hdl : (downloadStep env { s with dirty := true } url).2.1 =
        [Effect.download url] := by
      unfold downloadStep
      cases env.downloadResult url <;> rfl
    by_cases hc : env.confirm (downloadQuestion url) = true
    · rw [if_pos hc] at heq
      refine ⟨by rw [heq]; simp, fun _ => ?_, fun hf => absurd hc (by simp [hf]), ?_⟩
      · rw [heq]
        simp [hdl]
      · rw [heq, hdl]
        rfl
    · rw [if_neg hc] at heq
      exact ⟨by rw [heq]; simp, fun ht => absurd ht hc,
        fun _ => heq, by rw [heq]; rfl⟩
  · intro h1 h2 h3 h4
    have heq : openStep env s title url =
        (match loadStep env s title url with
         | (s', effs, .ok v) => (add_view s' v, effs, .ok ())
         | (s', effs, .error e) => (s', effs, .error e)) := by
      unfold openStep
      rw [h1, h2, h3, h4]
      simp
    have heffs : (openStep env s title url).2.1 = (loadStep env s title url).2.1 := by
      rw [heq]
      rcases hl : loadStep env s title url with ⟨s1, effs, r⟩
      cases r <;> simp
    refine ⟨?_, ?_, ?_, ?_⟩
    · rw [heffs, loadStep_effs]
      by_cases hi : isInternalUrl url = true
      · rw [if_pos hi]
        rfl
      · rw [if_neg hi]
        rfl
    · intro hi
      rw [heffs, loadStep_effs, if_neg (by simp [hi])]
      simp
    · intro s1 effs v hl
      rw [heq, hl]
    · intro s1 effs e hl
      rw [heq, hl]

/-- Witness for C5 at the telnet rule: with an empty stack and a telnet url,
`open` equals the telnet subprocess step. -/
theorem c5_open_resolution_order_witness :
    openStep trivialEnv (initState ⟨false, false, false, false⟩ (80, 24))
        "t".toList "telnet://h".toList =
      telnetStep trivialEnv (initState ⟨false, false, false, false⟩ (80, 24))
        "telnet://h".toList :=
  ((c5_open_resolution_order trivialEnv
      (initState ⟨false, false, false, false⟩ (80, 24))
      "t".toList "telnet://h".toList).2.1 (by decide) (by decide)).1

/-- Sequencing of the `Action::List` loop: processing `l₁ ++ l₂` first
processes `l₁`; if that succeeds, `l₂` continues from the resulting state and
the effect traces concatenate; if it fails, the result is that failure. -/
theorem processList_append (env : Env) (fuel : Nat) (s : UIState)
    (l₁ l₂ : List Action) :
    processList env fuel s (l₁ ++ l₂) =
      (match processList env fuel s l₁ with
       | (s', effs, .ok _) =>
         ((processList env fuel s' l₂).1,
          effs ++ (processList env fuel s' l₂).2.1,
          (processList env fuel s' l₂).2.2)
       | (s', effs, .error e) => (s', effs, .error e)) := by
  induction l₁ generalizing s with
  | nil =>
    rw [List.nil_append]
    rw [processList]
    simp
  | cons a rest ih =>
    rw [List.cons_append, processList, processList]
    rcases hpa : processAction env fuel s a with ⟨sa, effsa, ra⟩
    cases ra with
    | error e => simp
    | ok u =>
      simp only []
      rw [ih]
      rcases hpl : processList env fuel sa rest with ⟨sr, effsr, rr⟩
      cases rr <;> simp

/-- C6: `Action::List` members are dispatched strictly in declared order; when
a member fails, none of the remaining siblings runs (the result — state,
effects and error — does not depend on them), the error propagates to the
update loop, and the update loop surfaces it on the status line without
touching the running flag, the navigation stack or the focus index. -/
theorem c6_list_error_propagation (env : Env) (fuel : Nat) (s₀ : UIState)
    (as₁ : List Action) (a : Action) (as₂ : List Action) (e : Str)
    (s₁ s₂ : UIState) (effs₁ effs₂ : List Effect)
    (hfoc : s₀.focused < s₀.views.length)
    (h1 : processList env fuel { s₀ with status := [] } as₁ = (s₁, effs₁, .ok ()))
    (h2 : processAction env fuel s₁ a = (s₂, effs₂, .error e)) :
    processAction env fuel { s₀ with status := [] }
        (.actionList (as₁ ++ a :: as₂)) = (s₂, effs₁ ++ effs₂, .error e) ∧
    update env fuel s₀ (.actionList (as₁ ++ a :: as₂)) =
      (set_status s₂ (colorRed ++ e ++ hideCursorSeq), effs₁ ++ effs₂) ∧
    (set_status s₂ (colorRed ++ e ++ hideCursorSeq)).views = s₂.views ∧
    (set_status s₂ (colorRed ++ e ++ hideCursorSeq)).focused = s₂.focused ∧
    (set_status s₂ (colorRed ++ e ++ hideCursorSeq)).running = s₂.running := by
  have hlist : processAction env fuel { s₀ with status := [] }
      (.actionList (as₁ ++ a :: as₂)) = (s₂, effs₁ ++ effs₂, .error e) := by
    rw [processAction, processList_append, h1]
    simp only []
    rw [processList, h2]
  refine ⟨hlist, ?_, rfl, rfl, rfl⟩
  have hnone : Action.isNone (.actionList (as₁ ++ a :: as₂)) = false := rfl
  simp only [update]
  rw [if_pos hfoc, hnone]
  simp only [Bool.false_eq_true, if_false]
  rw [hlist]

/-- Witness for C6: a two-member list whose second member is `Action::Error`;
the third member would set the status but is skipped. -/
theorem c6_list_error_propagation_witness :
    processAction trivialEnv 0 { baseState with status := [] }
        (.actionList ([.redraw] ++ .error "boom".toList :: [.status "skipped".toList])) =
      ({ baseState with status := [], dirty := true }, [] ++ [],
       .error "boom".toList) ∧
    update trivialEnv 0 baseState
        (.actionList ([.redraw] ++ .error "boom".toList :: [.status "skipped".toList])) =
      (set_status { baseState with status := [], dirty := true }
        (colorRed ++ "boom".toList ++ hideCursorSeq), [] ++ []) ∧
    (set_status { baseState with status := [], dirty := true }
      (colorRed ++ "boom".toList ++ hideCursorSeq)).views =
        ({ baseState with status := [], dirty := true } : UIState).views ∧
    (set_status { baseState with status := [], dirty := true }
      (colorRed ++ "boom".toList ++ hideCursorSeq)).focused =
        ({ baseState with status := [], dirty := true } : UIState).focused ∧
    (set_status { baseState with status := [], dirty := true }
      (colorRed ++ "boom".toList ++ hideCursorSeq)).running =
        ({ baseState with status := [], dirty := true } : UIState).running := by
  exact c6_list_error_propagation trivialEnv 0 baseState [.redraw]
    (.error "boom".toList) [.status "skipped".toList] "boom".toList
    { baseState with status := [], dirty := true }
    { baseState with status := [], dirty := true } [] []
    (by decide)
    (by simp [processList.eq_def, processAction.eq_def])
    (by simp [processAction.eq_def])

/-- The embedded `UI::telnet` leaves the controller state unchanged except possibly the
redraw flag. -/
theorem telnetStep_state (env : Env) (s : UIState) (url : Str) :
    (telnetStep env s url).1 = s ∨
      (telnetStep env s url).1 = { s with dirty := true } := by
  simp only [telnetStep]
  rcases env.telnetSpawnResult (env.parseHostPort url).1 (env.parseHostPort url).2
    with e | u
  · left; rfl
  · rcases env.telnetWaitResult (env.parseHostPort url).1 (env.parseHostPort url).2
      with e | u
    · left; rfl
    · right; rfl

/-- The embedded `UI::download` never touches the navigation stack or the focus index. -/
theorem downloadStep_state (env : Env) (s : UIState) (url : Str) :
    (downloadStep env s url).1.views = s.views ∧
      (downloadStep env s url).1.focused = s.focused := by
  unfold downloadStep
  cases env.downloadResult url <;> exact ⟨rfl, rfl⟩

/-- The embedded `UI::load` never touches the navigation stack or the focus index (the view
it returns is pushed by the caller). -/
theorem loadStep_state (env : Env) (s : UIState) (title url : Str) :
    (loadStep env s title url).1.views = s.views ∧
      (loadStep env s title url).1.focused = s.focused := by
  simp only [loadStep, loadInternal]
  by_cases hi : isInternalUrl url = true
  · rw [if_pos hi]
    cases env.helpLookup (trimStartMatches "1/".toList (trimStartMatches phetchScheme url)) <;>
      exact ⟨rfl, rfl⟩
  · rw [if_neg hi]
    by_cases he : s.views.isEmpty = true <;>
      [rw [if_pos he]; rw [if_neg he]] <;>
      cases env.fetchResult url <;>
      first
        | exact ⟨rfl, rfl⟩
        | (cases env.typeForUrl url <;> exact ⟨rfl, rfl⟩)

/-- The embedded `UI::add_view` preserves the navigation invariant and always leaves the
stack non-empty. -/
theorem add_view_inv (s : UIState) (v : View) (h : Inv s) :
    (add_view s v).views ≠ [] ∧
      (add_view s v).focused < (add_view s v).views.length := by
  unfold add_view
  by_cases hc : ¬s.views.isEmpty ∧ s.focused < s.views.length - 1
  · rw [if_pos hc]
    dsimp only
    have hne : s.views ≠ [] := by
      intro hemp
      exact hc.1 (by simp [hemp])
    have hlt : s.focused + 1 < s.views.length := by
      have := hc.2
      omega
    have htk : (s.views.take (s.focused + 1)).length = s.focused + 1 := by
      simp [List.length_take]
      omega
    have hgt : (s.views.take (s.focused + 1) ++ [v]).length > 1 := by
      simp [htk]
    constructor
    · simp
    · rw [if_pos hgt]
      simp [htk]
  · rw [if_neg hc]
    dsimp only
    by_cases hemp : s.views = []
    · have hf0 : s.focused = 0 := h.1 hemp
      rw [hemp, hf0]
      simp
    · have hfl : s.focused < s.views.length := h.2 hemp
      have hlen : s.views.length ≠ 0 := by
        simpa using fun hz => hemp (List.length_eq_zero.mp hz)
      have hgt : (s.views ++ [v]).length > 1 := by
        simp
        omega
      constructor
      · simp
      · rw [if_pos hgt]
        simp
        omega

/-- The embedded `UI::open` preserves the navigation invariant, and never empties a
non-empty stack. -/
theorem openStep_inv (env : Env) (s : UIState) (title url : Str) (h : Inv s) :
    Inv (openStep env s title url).1 ∧
      (s.views ≠ [] → (openStep env s title url).1.views ≠ []) := by
  unfold openStep
  by_cases h1 : focusedUrlIs s url = true
  · rw [if_pos h1]
    exact ⟨h, fun hne => hne⟩
  · rw [if_neg h1]
    by_cases h2 : isTelnetUrl url = true
    · rw [if_pos h2]
      rcases telnetStep_state env s url with ht | ht <;> rw [ht]
      · exact ⟨h, fun hne => hne⟩
      · exact ⟨⟨h.1, h.2⟩, fun hne => hne⟩
    · rw [if_neg h2]
      by_cases h3 : isExternalUrl url = true
      · rw [if_pos h3]
        by_cases hc : env.confirm (externalQuestion url) = true <;>
          [rw [if_pos hc]; rw [if_neg hc]] <;>
          exact ⟨⟨h.1, h.2⟩, fun hne => hne⟩
      · rw [if_neg h3]
        by_cases h4 : (env.typeForUrl url).is_download = true
        · rw [if_pos h4]
          by_cases hc : env.confirm (downloadQuestion url) = true
          · rw [if_pos hc]
            dsimp only
            have hd := downloadStep_state env { s with dirty := true } url
            dsimp only at hd
            refine ⟨⟨fun hv => ?_, fun hv => ?_⟩, fun hne hv => ?_⟩
            · rw [hd.2]
              rw [hd.1] at hv
              exact h.1 hv
            · rw [hd.2, hd.1]
              rw [hd.1] at hv
              exact h.2 hv
            · rw [hd.1] at hv
              exact hne hv
          · rw [if_neg hc]
            exact ⟨⟨h.1, h.2⟩, fun hne => hne⟩
        · rw [if_neg h4]
          have hl := loadStep_state env s title url
          rcases hload : loadStep env s title url with ⟨s1, effs, r⟩
          rw [hload] at hl
          have hInv1 : Inv s1 := by
            constructor
            · intro hv
              rw [hl.2]
              exact h.1 (hl.1 ▸ hv)
            · intro hv
              rw [hl.2, hl.1]
              exact h.2 (hl.1 ▸ hv)
          cases r with
          | ok v =>
            have hav := add_view_inv s1 v hInv1
            exact ⟨⟨fun hv => absurd hv hav.1, fun _ => hav.2⟩,
              fun _ => hav.1⟩
          | error e =>
            refine ⟨hInv1, fun hne => ?_⟩
            rw [hl.1]
            exact hne

/-- The letter-key table preserves a non-empty stack and an in-range focus. -/
theorem charKeyStep_nav (env : Env) (s : UIState) (c : Char)
    (h1 : s.views ≠ []) (h2 : s.focused < s.views.length) :
    (charKeyStep env s c).1.views ≠ [] ∧
      (charKeyStep env s c).1.focused < (charKeyStep env s c).1.views.length := by
  have hInv : Inv s := ⟨fun hv => absurd hv h1, fun _ => h2⟩
  have hopen : ∀ t u, (openStep env s t u).1.views ≠ [] ∧
      (openStep env s t u).1.focused < (openStep env s t u).1.views.length := by
    intro t u
    have ho := openStep_inv env s t u hInv
    exact ⟨ho.2 h1, ho.1.2 (ho.2 h1)⟩
  unfold charKeyStep
  by_cases ha : c = 'a'
  · rw [if_pos ha]
    exact hopen _ _
  rw [if_neg ha]
  by_cases hb : c = 'b'
  · rw [if_pos hb]
    exact hopen _ _
  rw [if_neg hb]
  by_cases hg : c = 'g'
  · rw [if_pos hg]
    cases env.promptResult "Go to URL: ".toList [] with
    | some url => exact hopen _ _
    | none => exact ⟨h1, h2⟩
  rw [if_neg hg]
  by_cases hh : c = 'h'
  · rw [if_pos hh]
    exact hopen _ _
  rw [if_neg hh]
  by_cases hr : c = 'r'
  · rw [if_pos hr]
    cases s.views[s.focused]? with
    | some v => exact add_view_inv s _ hInv
    | none => exact ⟨h1, h2⟩
  rw [if_neg hr]
  by_cases hsk : c = 's'
  · rw [if_pos hsk]
    cases s.views[s.focused]? with
    | some v =>
      dsimp only
      cases env.bookmarkSave v.url v.url with
      | ok u => exact ⟨h1, h2⟩
      | error e => exact ⟨h1, h2⟩
    | none => exact ⟨h1, h2⟩
  rw [if_neg hsk]
  by_cases hu : c = 'u'
  · rw [if_pos hu]
    cases s.views[s.focused]? with
    | some v =>
      dsimp only
      cases env.promptResult "Current URL: ".toList v.url with
      | some url =>
        dsimp only
        by_cases hne : url ≠ v.url
        · rw [if_pos hne]
          exact hopen _ _
        · rw [if_neg hne]
          exact ⟨h1, h2⟩
      | none => exact ⟨h1, h2⟩
    | none => exact ⟨h1, h2⟩
  rw [if_neg hu]
  by_cases hy : c = 'y'
  · rw [if_pos hy]
    cases s.views[s.focused]? with
    | some v =>
      dsimp only
      cases env.clipboardResult v.url with
      | ok u => exact ⟨h1, h2⟩
      | error e => exact ⟨h1, h2⟩
    | none => exact ⟨h1, h2⟩
  rw [if_neg hy]
  by_cases hw : c = 'w'
  · rw [if_pos hw]
    dsimp only
    cases s.views[s.focused]? with
    | some v =>
      dsimp only
      refine ⟨fun hemp => ?_, ?_⟩
      · have hz : (s.views.set s.focused (v.set_wide (¬v.wide))).length = 0 := by
          rw [hemp]
          rfl
        rw [List.length_set] at hz
        exact h1 (List.length_eq_zero.mp hz)
      · simpa [List.length_set] using h2
    | none => exact ⟨h1, h2⟩
  rw [if_neg hw]
  by_cases hq : c = 'q'
  · rw [if_pos hq]
    exact ⟨h1, h2⟩
  rw [if_neg hq]
  exact ⟨h1, h2⟩

/-- The keypress arms preserve a non-empty stack and an in-range focus; in
particular back navigation never takes the focus below 0 and forward
navigation never takes it to or past the stack length. -/
theorem keyStep_nav (env : Env) (s : UIState) (k : Key)
    (h1 : s.views ≠ []) (h2 : s.focused < s.views.length) :
    (keyStep env s k).1.views ≠ [] ∧
      (keyStep env s k).1.focused < (keyStep env s k).1.views.length := by
  have hlen : s.views.length ≠ 0 := fun hz => h1 (List.length_eq_zero.mp hz)
  cases k with
  | ctrl c =>
    dsimp only [keyStep]
    by_cases hc : c = 'c'
    · rw [if_pos hc]
      exact ⟨h1, h2⟩
    rw [if_neg hc]
    by_cases hz : c = 'z'
    · rw [if_pos hz]
      exact ⟨h1, h2⟩
    rw [if_neg hz]
    exact charKeyStep_nav env s c h1 h2
  | char c => exact charKeyStep_nav env s c h1 h2
  | esc => exact ⟨h1, h2⟩
  | other => exact ⟨h1, h2⟩
  | left =>
    dsimp only [keyStep]
    by_cases hf : s.focused > 0
    · rw [if_pos hf]
      exact ⟨h1, by dsimp only; omega⟩
    · rw [if_neg hf]
      exact ⟨h1, h2⟩
  | backspace =>
    dsimp only [keyStep]
    by_cases hf : s.focused > 0
    · rw [if_pos hf]
      exact ⟨h1, by dsimp only; omega⟩
    · rw [if_neg hf]
      exact ⟨h1, h2⟩
  | right =>
    dsimp only [keyStep]
    by_cases hf : s.focused < usizeDec s.views.length
    · rw [if_pos hf]
      rw [usizeDec, if_neg hlen] at hf
      exact ⟨h1, by dsimp only; omega⟩
    · rw [if_neg hf]
      exact ⟨h1, h2⟩

mutual

/-- The embedded `UI::process_action` preserves a non-empty stack and an in-range focus,
however deep the action tree and the prompt continuations go. -/
theorem processAction_nav (env : Env) (fuel : Nat) (a : Action) (s : UIState)
    (h1 : s.views ≠ []) (h2 : s.focused < s.views.length) :
    (processAction env fuel s a).1.views ≠ [] ∧
      (processAction env fuel s a).1.focused <
        (processAction env fuel s a).1.views.length := by
  cases a with
  | actionList as =>
    rw [processAction]
    exact processList_nav env fuel as s h1 h2
  | prompt q cont =>
    rw [processAction]
    cases env.promptResult q [] with
    | none => exact ⟨h1, h2⟩
    | some resp =>
      cases fuel with
      | zero => exact ⟨h1, h2⟩
      | succ f => exact processAction_nav env f (cont resp) s h1 h2
  | keypress k =>
    rw [processAction]
    exact keyStep_nav env s k h1 h2
  | openIt title url =>
    rw [processAction]
    have ho := openStep_inv env s title url ⟨fun hv => absurd hv h1, fun _ => h2⟩
    exact ⟨ho.2 h1, ho.1.2 (ho.2 h1)⟩
  | error e =>
    rw [processAction]
    exact ⟨h1, h2⟩
  | redraw =>
    rw [processAction]
    exact ⟨h1, h2⟩
  | drawBytes b =>
    rw [processAction]
    exact ⟨h1, h2⟩
  | status t =>
    rw [processAction]
    exact ⟨h1, h2⟩
  | noop =>
    rw [processAction]
    exact ⟨h1, h2⟩
termination_by (fuel, sizeOf a)

/-- The `Action::List` loop preserves a non-empty stack and an in-range
focus. -/
theorem processList_nav (env : Env) (fuel : Nat) (l : List Action) (s : UIState)
    (h1 : s.views ≠ []) (h2 : s.focused < s.views.length) :
    (processList env fuel s l).1.views ≠ [] ∧
      (processList env fuel s l).1.focused <
        (processList env fuel s l).1.views.length := by
  cases l with
  | nil =>
    rw [processList]
    exact ⟨h1, h2⟩
  | cons a rest =>
    rw [processList]
    have hG := processAction_nav env fuel a s h1 h2
    rcases hpa : processAction env fuel s a with ⟨sa, effs, r⟩
    rw [hpa] at hG
    cases r with
    | ok u =>
      dsimp only
      exact processList_nav env fuel rest sa hG.1 hG.2
    | error e => exact hG
termination_by (fuel, sizeOf l)

end

/-- One pass of the update loop preserves the navigation invariant, whatever
action the focused view produces. -/
theorem update_inv (env : Env) (fuel : Nat) (s : UIState) (a : Action)
    (h : Inv s) : Inv (update env fuel s a).1 := by
  by_cases hfoc : s.focused < s.views.length
  · have h1 : s.views ≠ [] := by
      intro hemp
      rw [hemp] at hfoc
      simp at hfoc
    simp only [update]
    rw [if_pos hfoc]
    have hnav : ∀ s' : UIState, s'.views = s.views → s'.focused = s.focused →
        Inv (match processAction env fuel s' a with
             | (s'', effs, .ok _) => (s'', effs)
             | (s'', effs, .error e) =>
               (set_status s'' (colorRed ++ e ++ hideCursorSeq), effs)).1 := by
      intro s' hv hf
      have hok := processAction_nav env fuel a s' (by rw [hv]; exact h1)
        (by rw [hv, hf]; exact hfoc)
      rcases hpa : processAction env fuel s' a with ⟨s2, effs, r⟩
      rw [hpa] at hok
      cases r with
      | ok u => exact ⟨fun hv2 => absurd hv2 hok.1, fun _ => hok.2⟩
      | error e => exact ⟨fun hv2 => absurd hv2 hok.1, fun _ => hok.2⟩
    by_cases hn : a.isNone = true
    · rw [if_pos hn]
      exact hnav s rfl rfl
    · rw [if_neg hn]
      exact hnav _ rfl rfl
  · simp only [update]
    rw [if_neg hfoc]
    rw [show Action.isNone (.error noPageMsg) = false from rfl]
    simp only [Bool.false_eq_true, if_false]
    rw [processAction]
    exact ⟨fun hv => h.1 hv, fun hv => h.2 hv⟩

/-- Every state reachable from `UI::new` satisfies the navigation
invariant. -/
theorem reach_inv (s : UIState) (h : Reach s) : Inv s := by
  induction h with
  | initial cfg sz => exact ⟨fun _ => rfl, fun hne => absurd rfl hne⟩
  | stepOpen env title url s' hr ih => exact (openStep_inv env s' title url ih).1
  | stepUpdate env fuel a s' hr ih => exact update_inv env fuel s' a ih

/-- C8: focus-index invariant — in every controller state reachable from the
initial state (through startup opens and update steps that add views, navigate
back with Left/Backspace, navigate forward with Right, or dispatch any other
action), a non-empty navigation stack has its focus index strictly below the
stack length. -/
theorem c8_focus_invariant (s : UIState) (h : Reach s)
    (hne : s.views ≠ []) : s.focused < s.views.length :=
  (reach_inv s h).2 hne

/-- Witness for C8: the state after the startup open of a plain gopher url is
reachable, has one view, and its focus index 0 is below the stack length 1. -/
theorem c8_focus_invariant_witness :
    (openStep trivialEnv (initState baseCfg (80, 24)) "t".toList "a".toList).1.views
        ≠ [] ∧
      (openStep trivialEnv (initState baseCfg (80, 24)) "t".toList "a".toList).1.focused <
        (openStep trivialEnv (initState baseCfg (80, 24)) "t".toList "a".toList).1.views.length :=
  ⟨by decide,
   c8_focus_invariant _
     (Reach.stepOpen trivialEnv "t".toList "a".toList _
       (Reach.initial baseCfg (80, 24)))
     (by decide)⟩

/-- Witness for C7: an unfocused, non-telnet, non-external, non-internal url
whose fetch succeeds with resolved type Info. -/
theorem c7_unsupported_response_witness :
    letI env : Env := { trivialEnv with typeForUrl := fun _ => .Info }
    letI s := initState ⟨false, false, false, false⟩ (80, 24)
    letI r := openStep env s "t".toList "foo".toList
    r.2.2 = .error (unsupportedMsg .Info) ∧ r.1.views = [] ∧ r.1.focused = 0 := by
  have h := c7_unsupported_response
    { trivialEnv with typeForUrl := fun _ => .Info }
    (initState ⟨false, false, false, false⟩ (80, 24)) "t".toList "foo".toList
    (by decide) (by decide) (by decide) (by decide) (by decide)
    ⟨(false, []), rfl⟩ (by decide) (by decide) (by decide) (by decide)
  exact ⟨h.1, h.2.1, h.2.2⟩

end Phetch
